import Mathlib

/-!
Verification of `torchdyn/core/utils.py`: the `Augmenter`, `DepthCat` and
`DataControl` modules and the `SCIPY_SOLVERS` table, checked against the
repository's specification.

Tensors are shallowly embedded as a shape (a list of dimension sizes)
together with a total valuation on multi-indices; entries are integers
(`.to(x)`, a dtype/device cast in the source, is the identity in this value
model).  Only indices valid for the shape are meaningful.  Operations that
raise in the source (`torch.cat` on mismatched shapes, list assignment out
of range, arithmetic with `None`) return `none`.
-/

/-- An n-dimensional tensor: a shape and a valuation on multi-indices.
The valuation is total for convenience; only valid indices matter. -/
structure Tensor where
  shape : List Nat
  data : List Nat → Int

/-- `idx` is a valid multi-index for shape `s`. -/
def validIdx (s idx : List Nat) : Prop :=
  idx.length = s.length ∧ ∀ j, j < s.length → idx.getD j 0 < s.getD j 0

instance (s idx : List Nat) : Decidable (validIdx s idx) := by
  unfold validIdx; infer_instance

/-- Extensional tensor equality: same shape and same entries at every valid
index (the valuation off the valid range is an artifact of the embedding). -/
def Tensor.eqv (a b : Tensor) : Prop :=
  a.shape = b.shape ∧ ∀ idx, validIdx a.shape idx → a.data idx = b.data idx

/-- `torch.zeros(s)`. -/
def Tensor.zeros (s : List Nat) : Tensor := ⟨s, fun _ => 0⟩

/-- `torch.ones(s)`. -/
def Tensor.ones (s : List Nat) : Tensor := ⟨s, fun _ => 1⟩

/-- A rank-0 (scalar) tensor holding the value `v`. -/
def Tensor.scalar (v : Int) : Tensor := ⟨[], fun _ => v⟩

/-- Mutating assignment `l[i] = v` on a Python list: fails (IndexError) when
`i` is out of range. -/
def setIdx (l : List Nat) (i v : Nat) : Option (List Nat) :=
  if i < l.length then some (l.set i v) else none

/-- `torch.cat([a, b], dim)`: shapes must have the same rank, `dim` must be
in range, and the shapes must agree on every axis other than `dim`;
otherwise the operator raises (here: `none`). -/
def Tensor.cat (a b : Tensor) (dim : Nat) : Option Tensor :=
  if a.shape.length = b.shape.length ∧ dim < a.shape.length ∧
      ∀ j, j < a.shape.length → j ≠ dim → a.shape.getD j 0 = b.shape.getD j 0 then
    some ⟨a.shape.set dim (a.shape.getD dim 0 + b.shape.getD dim 0),
      fun idx =>
        if idx.getD dim 0 < a.shape.getD dim 0 then a.data idx
        else b.data (idx.set dim (idx.getD dim 0 - a.shape.getD dim 0))⟩
  else none

/-- Numpy/torch broadcast of two shapes, on right-aligned (reversed) shapes:
paired sizes must match or one of them be 1. -/
def broadcastShapeR : List Nat → List Nat → Option (List Nat)
  | [], l => some l
  | a :: as, [] => some (a :: as)
  | a :: as, b :: bs =>
    if a = b ∨ a = 1 ∨ b = 1 then
      (broadcastShapeR as bs).map (fun r => max a b :: r)
    else none

/-- Broadcast of two shapes. -/
def broadcastShape (s1 s2 : List Nat) : Option (List Nat) :=
  (broadcastShapeR s1.reverse s2.reverse).map List.reverse

/-- Map a multi-index of the broadcast result shape to a multi-index of an
operand of shape `ashape`: keep the trailing `ashape.length` coordinates and
clamp coordinates of broadcast (size-1) axes to 0. -/
def broadcastIdx (ashape idx : List Nat) : List Nat :=
  (List.zip ashape (idx.drop (idx.length - ashape.length))).map
    (fun p => if p.1 = 1 then 0 else p.2)

/-- Elementwise tensor multiplication with numpy/torch broadcasting; fails
(raises in the source) when the shapes are not broadcast-compatible. -/
def Tensor.mul (a b : Tensor) : Option Tensor :=
  match broadcastShape a.shape b.shape with
  | none => none
  | some s =>
    some ⟨s, fun idx =>
      a.data (broadcastIdx a.shape idx) * b.data (broadcastIdx b.shape idx)⟩

/-- Per-entry solver configuration record of `SCIPY_SOLVERS`. -/
structure SolverConfig where
  method : String
  options : List (String × String)
deriving DecidableEq

/-- The `SCIPY_SOLVERS` lookup table of `torchdyn/core/utils.py`. -/
def SCIPY_SOLVERS : List (String × SolverConfig) :=
  [("scipy_LSODA", ⟨"scipy_solver", [("solver", "LSODA")]⟩),
   ("scipy_RK45", ⟨"scipy_solver", [("solver", "RK45")]⟩),
   ("scipy_RK23", ⟨"scipy_solver", [("solver", "RK23")]⟩),
   ("scipy_DOP853", ⟨"scipy_solver", [("solver", "DOP853")]⟩),
   ("scipy_BDF", ⟨"scipy_solver", [("solver", "BDF")]⟩),
   ("scipy_Radau", ⟨"scipy_solver", [("solver", "Radau")]⟩)]

/-- The `Augmenter` module's state (all fields set at construction,
defaults as in the source). -/
structure Augmenter where
  augment_idx : Nat := 1
  augment_dims : Nat := 5
  augment_func : Option (Tensor → Tensor) := none
  order : String := "first"

/-- `Augmenter.forward`.  With `augment_func` unset, concatenates a zero
tensor (input shape with axis `augment_idx` resized to `augment_dims`)
before or after `x` along `augment_idx` depending on `order == 'first'`;
with `augment_func` set, concatenates `augment_func(x)` instead. -/
def Augmenter.forward (m : Augmenter) (x : Tensor) : Option Tensor :=
  match m.augment_func with
  | none =>
    match setIdx x.shape m.augment_idx m.augment_dims with
    | none => none
    | some new_dims =>
      if m.order = "first" then
        Tensor.cat (Tensor.zeros new_dims) x m.augment_idx
      else
        Tensor.cat x (Tensor.zeros new_dims) m.augment_idx
  | some f =>
    if m.order = "first" then
      Tensor.cat (f x) x m.augment_idx
    else
      Tensor.cat x (f x) m.augment_idx

/-- The `DepthCat` module's state: the axis `idx_cat` (construction) and the
externally assigned depth value `s` (`None` at construction). -/
structure DepthCat where
  idx_cat : Nat := 1
  s : Option Tensor := none

/-- `self.s * torch.ones(s_shape)`: multiplying the absence marker `None`
raises a TypeError (here `none`). -/
def mulOnes : Option Tensor → List Nat → Option Tensor
  | none, _ => none
  | some s, sh => Tensor.mul s (Tensor.ones sh)

/-- `DepthCat.forward`: builds `s_shape` (input shape with axis `idx_cat`
set to 1), overwrites `self.s` with `self.s * ones(s_shape)`, and returns
the updated state together with `cat([x, self.s], idx_cat)`.  Failures
before the assignment to `self.s` leave the state unchanged. -/
def DepthCat.forward (m : DepthCat) (x : Tensor) : DepthCat × Option Tensor :=
  match setIdx x.shape m.idx_cat 1 with
  | none => (m, none)
  | some s_shape =>
    match mulOnes m.s s_shape with
    | none => (m, none)
    | some s2 => (⟨m.idx_cat, some s2⟩, Tensor.cat x s2 m.idx_cat)

/-- Repeated invocation of `DepthCat.forward` by the enclosing driver
(`s` is "set once per solver step, read on every forward call"): one
`forward` call per input tensor, threading the state that each call
mutates into the next call; returns the final state and all outputs. -/
def depthcatRun (st : DepthCat) : List Tensor → DepthCat × List (Option Tensor)
  | [] => (st, [])
  | x :: xs =>
    let r := DepthCat.forward st x
    let rr := depthcatRun r.1 xs
    (rr.1, r.2 :: rr.2)

/-- The `DataControl` module's state: the externally assigned control
tensor `u` (`None` at construction). -/
structure DataControl where
  u : Option Tensor := none

/-- `DataControl.forward`: `cat([x, self.u], 1)`; with `u` unset the
concatenation of `None` raises (here `none`). -/
def DataControl.forward (m : DataControl) (x : Tensor) : Option Tensor :=
  match m.u with
  | none => none
  | some u => Tensor.cat x u 1

/-! ### Helper lemmas on list indexing and the tensor operations -/

theorem getD_set_self (l : List Nat) (i v : Nat) (h : i < l.length) :
    (l.set i v).getD i 0 = v := by
  rw [List.getD_eq_getElem?_getD, List.getElem?_set_self h]
  rfl

theorem getD_set_ne (l : List Nat) (i j v : Nat) (h : i ≠ j) :
    (l.set i v).getD j 0 = l.getD j 0 := by
  rw [List.getD_eq_getElem?_getD, List.getElem?_set_ne h, ← List.getD_eq_getElem?_getD]

/-- Evaluation of `Tensor.cat` when the shape side conditions hold. -/
theorem Tensor.cat_eq (a b : Tensor) (dim : Nat)
    (h1 : a.shape.length = b.shape.length) (h2 : dim < a.shape.length)
    (h3 : ∀ j, j < a.shape.length → j ≠ dim → a.shape.getD j 0 = b.shape.getD j 0) :
    Tensor.cat a b dim =
      some ⟨a.shape.set dim (a.shape.getD dim 0 + b.shape.getD dim 0),
        fun idx =>
          if idx.getD dim 0 < a.shape.getD dim 0 then a.data idx
          else b.data (idx.set dim (idx.getD dim 0 - a.shape.getD dim 0))⟩ := by
  unfold Tensor.cat
  rw [if_pos ⟨h1, h2, h3⟩]

theorem broadcastShapeR_self : ∀ l : List Nat, broadcastShapeR l l = some l
  | [] => rfl
  | a :: l => by
    simp [broadcastShapeR, broadcastShapeR_self l]

theorem broadcastShape_self (s : List Nat) : broadcastShape s s = some s := by
  simp [broadcastShape, broadcastShapeR_self]

/-- A scalar times a ones tensor of shape `[B, 1]` broadcasts the scalar. -/
theorem scalar_mul_ones (v : Int) (B : Nat) :
    Tensor.mul (Tensor.scalar v) (Tensor.ones [B, 1]) =
      some ⟨[B, 1], fun _ => v * 1⟩ := rfl

/-- A tensor of shape `[B, 1]` times a ones tensor of the same shape
multiplies the entries pointwise (after the broadcast index clamp). -/
theorem mul_ones_self (B : Nat) (td : List Nat → Int) :
    Tensor.mul ⟨[B, 1], td⟩ (Tensor.ones [B, 1]) =
      some ⟨[B, 1], fun idx => td (broadcastIdx [B, 1] idx) * 1⟩ := by
  simp only [Tensor.mul, Tensor.ones, broadcastShape_self]

/-- Two lists of equal length agreeing off position `i` are equal after
both are overwritten at `i`. -/
theorem set_eq_of_agree_off (l1 l2 : List Nat) (i w : Nat)
    (hlen : l1.length = l2.length)
    (hoff : ∀ j, j < l1.length → j ≠ i → l1.getD j 0 = l2.getD j 0) :
    l1.set i w = l2.set i w := by
  apply List.ext_getElem (by simp [hlen])
  intro j hj1 hj2
  rcases eq_or_ne i j with rfl | hne
  · rw [List.getElem_set_self, List.getElem_set_self]
  · rw [List.getElem_set_ne hne, List.getElem_set_ne hne]
    rw [← List.getD_eq_getElem l1 0 (by simpa using hj1),
      ← List.getD_eq_getElem l2 0 (by simpa using hj2)]
    exact hoff j (by simpa using hj1) (Ne.symm hne)

/-! ### Claim theorems -/

/-- Claim C8: `SCIPY_SOLVERS` is a fixed table mapping exactly the six
names `scipy_LSODA`, `scipy_RK45`, `scipy_RK23`, `scipy_DOP853`,
`scipy_BDF`, `scipy_Radau` to records whose `method` is `"scipy_solver"`
and whose options map `"solver"` to the name's suffix after `"scipy_"`. -/
theorem scipy_solvers_fixed_table :
    SCIPY_SOLVERS =
      (["LSODA", "RK45", "RK23", "DOP853", "BDF", "Radau"]).map
        (fun s => ("scipy_" ++ s, ⟨"scipy_solver", [("solver", s)]⟩)) := by
  rfl

/-- Claim C6: calling `DepthCat.forward` before `s` is ever set, or
`DataControl.forward` before `u` is ever set (the field still holds
`none`), yields an error rather than a tensor; for `DepthCat` the failure
is at the multiplication of the absent `s` with the ones tensor, and the
state is left unchanged. -/
theorem forward_unset_is_error (i : Nat) (x : Tensor) :
    mulOnes none (x.shape.set i 1) = none ∧
    DepthCat.forward ⟨i, none⟩ x = (⟨i, none⟩, none) ∧
    DataControl.forward ⟨none⟩ x = none := by
  refine ⟨rfl, ?_, rfl⟩
  unfold DepthCat.forward
  cases setIdx x.shape i 1 <;> rfl

/-- Claim C7: each forward mapping is deterministic: identical stored
state (same constructor parameters and the same `s` / `u`) and the same
input tensor yield equal output tensors.  The translated forward
functions read nothing besides the state and the input (the source
consults no randomness and no globals). -/
theorem forwards_deterministic (a1 a2 : Augmenter) (d1 d2 : DepthCat)
    (c1 c2 : DataControl) (x : Tensor)
    (hai : a1.augment_idx = a2.augment_idx)
    (had : a1.augment_dims = a2.augment_dims)
    (haf : a1.augment_func = a2.augment_func) (hao : a1.order = a2.order)
    (hdi : d1.idx_cat = d2.idx_cat) (hds : d1.s = d2.s) (hcu : c1.u = c2.u) :
    Augmenter.forward a1 x = Augmenter.forward a2 x ∧
    DepthCat.forward d1 x = DepthCat.forward d2 x ∧
    DataControl.forward c1 x = DataControl.forward c2 x := by
  obtain ⟨i1, m1, f1, o1⟩ := a1
  obtain ⟨i2, m2, f2, o2⟩ := a2
  obtain ⟨j1, s1⟩ := d1
  obtain ⟨j2, s2⟩ := d2
  obtain ⟨u1⟩ := c1
  obtain ⟨u2⟩ := c2
  dsimp only at hai had haf hao hdi hds hcu
  subst hai had haf hao hdi hds hcu
  exact ⟨rfl, rfl, rfl⟩

theorem forwards_deterministic_witness :
    Augmenter.forward ⟨1, 2, none, "first"⟩ ⟨[2, 2], fun _ => 3⟩ =
      Augmenter.forward ⟨1, 2, none, "first"⟩ ⟨[2, 2], fun _ => 3⟩ ∧
    DepthCat.forward ⟨1, some (Tensor.scalar 4)⟩ ⟨[2, 2], fun _ => 3⟩ =
      DepthCat.forward ⟨1, some (Tensor.scalar 4)⟩ ⟨[2, 2], fun _ => 3⟩ ∧
    DataControl.forward ⟨some (Tensor.ones [2, 1])⟩ ⟨[2, 2], fun _ => 3⟩ =
      DataControl.forward ⟨some (Tensor.ones [2, 1])⟩ ⟨[2, 2], fun _ => 3⟩ :=
  forwards_deterministic ⟨1, 2, none, "first"⟩ ⟨1, 2, none, "first"⟩
    ⟨1, some (Tensor.scalar 4)⟩ ⟨1, some (Tensor.scalar 4)⟩
    ⟨some (Tensor.ones [2, 1])⟩ ⟨some (Tensor.ones [2, 1])⟩
    ⟨[2, 2], fun _ => 3⟩ rfl rfl rfl rfl rfl rfl rfl

/-- Claim C9: `Augmenter.forward` branches only on whether `order` equals
the exact string "first": every other `order` value (e.g. "last" or a
misspelling) behaves exactly as `order = "last"`, with no validation and
no error. -/
theorem augmenter_order_fallback_last (m : Augmenter) (x : Tensor)
    (h : m.order ≠ "first") :
    Augmenter.forward m x =
      Augmenter.forward ⟨m.augment_idx, m.augment_dims, m.augment_func, "last"⟩ x := by
  obtain ⟨i, d, f, o⟩ := m
  dsimp only at h
  have hl : ("last" : String) ≠ "first" := by decide
  cases f <;> simp only [Augmenter.forward, if_neg h, if_neg hl]

theorem augmenter_order_fallback_last_witness :
    Augmenter.forward ⟨1, 2, none, "banana"⟩ ⟨[2, 2], fun _ => 3⟩ =
      Augmenter.forward ⟨1, 2, none, "last"⟩ ⟨[2, 2], fun _ => 3⟩ :=
  augmenter_order_fallback_last ⟨1, 2, none, "banana"⟩ ⟨[2, 2], fun _ => 3⟩
    (by decide)

/-- Rank-2 shapes `[B, C]` and `[B, D]` agree off axis 1. -/
theorem agree_off_one (B C D j : Nat) (hj : j < ([B, C] : List Nat).length)
    (hne : j ≠ 1) :
    ([B, C] : List Nat).getD j 0 = ([B, D] : List Nat).getD j 0 := by
  have hj2 : j < 2 := by simpa using hj
  have hj0 : j = 0 := by omega
  subst hj0
  rfl

/-- Claim C1: `DepthCat` with `idx_cat = 1` and `s` a scalar `v`, applied
to `x` of shape `(B, C)`, returns a tensor of shape `(B, C + 1)` whose
first `C` columns equal `x` and whose appended column is `v` in every
batch row. -/
theorem depthcat_scalar_forward (B C : Nat) (v : Int) (x : Tensor)
    (hx : x.shape = [B, C]) :
    ∃ st out, DepthCat.forward ⟨1, some (Tensor.scalar v)⟩ x = (st, some out) ∧
      out.shape = [B, C + 1] ∧
      (∀ b c, b < B → c < C → out.data [b, c] = x.data [b, c]) ∧
      (∀ b, b < B → out.data [b, C] = v) := by
  obtain ⟨sh, xd⟩ := x
  change sh = [B, C] at hx
  subst hx
  have hcat := Tensor.cat_eq ⟨[B, C], xd⟩ ⟨[B, 1], fun _ => v * 1⟩ 1 rfl
    Nat.one_lt_two (fun j hj hne => agree_off_one B C 1 j hj hne)
  refine ⟨⟨1, some ⟨[B, 1], fun _ => v * 1⟩⟩,
    ⟨[B, C + 1], fun idx => if idx.getD 1 0 < C then xd idx else v * 1⟩,
    ?_, rfl, ?_, ?_⟩
  · exact congrArg (Prod.mk _) hcat
  · intro b c _ hc
    show (if c < C then xd [b, c] else v * 1) = xd [b, c]
    rw [if_pos hc]
  · intro b _
    show (if C < C then xd [b, C] else v * 1) = v
    rw [if_neg (lt_irrefl C)]
    exact mul_one v

theorem depthcat_scalar_forward_witness :
    ∃ st out,
      DepthCat.forward ⟨1, some (Tensor.scalar 7)⟩ ⟨[2, 3], fun _ => 5⟩ =
        (st, some out) ∧
      out.shape = [2, 3 + 1] ∧
      (∀ b c, b < 2 → c < 3 →
        out.data [b, c] = (Tensor.mk [2, 3] fun _ => 5).data [b, c]) ∧
      (∀ b, b < 2 → out.data [b, 3] = 7) :=
  depthcat_scalar_forward 2 3 7 ⟨[2, 3], fun _ => 5⟩ rfl

/-- Claim C4: `DataControl` with `u` of shape `(B, k)` applied to `x` of
shape `(B, C)` returns a tensor of shape `(B, C + k)` whose first `C`
columns equal `x` and whose last `k` columns equal `u`. -/
theorem datacontrol_forward_cat (B C k : Nat) (x u : Tensor)
    (hx : x.shape = [B, C]) (hu : u.shape = [B, k]) :
    ∃ out, DataControl.forward ⟨some u⟩ x = some out ∧
      out.shape = [B, C + k] ∧
      (∀ b c, b < B → c < C → out.data [b, c] = x.data [b, c]) ∧
      (∀ b j, b < B → j < k → out.data [b, C + j] = u.data [b, j]) := by
  obtain ⟨shx, xd⟩ := x
  obtain ⟨shu, ud⟩ := u
  change shx = [B, C] at hx
  change shu = [B, k] at hu
  subst hx hu
  have hcat := Tensor.cat_eq ⟨[B, C], xd⟩ ⟨[B, k], ud⟩ 1 rfl
    Nat.one_lt_two (fun j hj hne => agree_off_one B C k j hj hne)
  refine ⟨⟨[B, C + k], fun idx => if idx.getD 1 0 < C then xd idx
      else ud (idx.set 1 (idx.getD 1 0 - C))⟩, ?_, rfl, ?_, ?_⟩
  · exact hcat
  · intro b c _ hc
    show (if c < C then xd [b, c] else ud ([b, c].set 1 (c - C))) = xd [b, c]
    rw [if_pos hc]
  · intro b j _ _
    show (if C + j < C then xd [b, C + j]
      else ud ([b, C + j].set 1 (C + j - C))) = ud [b, j]
    rw [if_neg (by omega)]
    have hj : C + j - C = j := by omega
    rw [hj]
    rfl

theorem datacontrol_forward_cat_witness :
    ∃ out,
      DataControl.forward ⟨some ⟨[2, 2], fun _ => 9⟩⟩ ⟨[2, 3], fun _ => 5⟩ =
        some out ∧
      out.shape = [2, 3 + 2] ∧
      (∀ b c, b < 2 → c < 3 →
        out.data [b, c] = (Tensor.mk [2, 3] fun _ => 5).data [b, c]) ∧
      (∀ b j, b < 2 → j < 2 →
        out.data [b, 3 + j] = (Tensor.mk [2, 2] fun _ => 9).data [b, j]) :=
  datacontrol_forward_cat 2 3 2 ⟨[2, 3], fun _ => 5⟩ ⟨[2, 2], fun _ => 9⟩ rfl rfl

/-- Claim C2 counterexample: `DepthCat.forward` does write a field: with
`s` set to the scalar 2 and a `(1, 1)` input, the call succeeds and
afterwards `s` no longer holds the scalar (it was overwritten by the
broadcast `s * ones`, a tensor of shape `(1, 1)`). -/
theorem depthcat_forward_mutates_state :
    (DepthCat.forward ⟨1, some (Tensor.scalar 2)⟩ ⟨[1, 1], fun _ => 0⟩).1.s ≠
      some (Tensor.scalar 2) ∧
    ((DepthCat.forward ⟨1, some (Tensor.scalar 2)⟩ ⟨[1, 1], fun _ => 0⟩).2).isSome
      = true := by
  constructor
  · intro h
    have hsh : ([1, 1] : List Nat) = [] :=
      congrArg (fun o => (o.getD (Tensor.scalar 0)).shape) h
    simp at hsh
  · rfl

/-- Claim C2 amended: `DepthCat.forward` reads the stored depth value `s`
and overwrites the `s` field with its broadcast against the ones tensor of
the input's shape with axis `idx_cat` set to 1; for a scalar `s = v` and a
`(B, C)` input the new `s` is the `(B, 1)` tensor with every entry `v`
(the numeric content is preserved), and `idx_cat` is not written. -/
theorem depthcat_forward_state_change (B C : Nat) (v : Int) (x : Tensor)
    (hx : x.shape = [B, C]) :
    ∃ st out, DepthCat.forward ⟨1, some (Tensor.scalar v)⟩ x = (st, some out) ∧
      st.idx_cat = 1 ∧
      ∃ t, st.s = some t ∧ t.shape = [B, 1] ∧ ∀ idx, t.data idx = v := by
  obtain ⟨sh, xd⟩ := x
  change sh = [B, C] at hx
  subst hx
  have hcat := Tensor.cat_eq ⟨[B, C], xd⟩ ⟨[B, 1], fun _ => v * 1⟩ 1 rfl
    Nat.one_lt_two (fun j hj hne => agree_off_one B C 1 j hj hne)
  refine ⟨⟨1, some ⟨[B, 1], fun _ => v * 1⟩⟩,
    ⟨[B, C + 1], fun idx => if idx.getD 1 0 < C then xd idx else v * 1⟩,
    ?_, rfl, ⟨[B, 1], fun _ => v * 1⟩, rfl, rfl, fun _ => mul_one v⟩
  exact congrArg (Prod.mk _) hcat

theorem depthcat_forward_state_change_witness :
    ∃ st out,
      DepthCat.forward ⟨1, some (Tensor.scalar 7)⟩ ⟨[2, 3], fun _ => 6⟩ =
        (st, some out) ∧
      st.idx_cat = 1 ∧
      ∃ t, st.s = some t ∧ t.shape = [2, 1] ∧ ∀ idx, t.data idx = 7 :=
  depthcat_forward_state_change 2 3 7 ⟨[2, 3], fun _ => 6⟩ rfl

/-- Evaluation of `DepthCat.forward` on a rank-2 input once the result of
the `s * ones` broadcast is known. -/
theorem depthcat_forward_rank2 (B C : Nat) (s0 : Tensor) (xd : List Nat → Int)
    (t : Tensor) (hmul : Tensor.mul s0 (Tensor.ones [B, 1]) = some t) :
    DepthCat.forward ⟨1, some s0⟩ ⟨[B, C], xd⟩ =
      (⟨1, some t⟩, Tensor.cat ⟨[B, C], xd⟩ t 1) := by
  have h : DepthCat.forward ⟨1, some s0⟩ ⟨[B, C], xd⟩ =
      (match Tensor.mul s0 (Tensor.ones [B, 1]) with
        | none => ((⟨1, some s0⟩ : DepthCat), (none : Option Tensor))
        | some s2 => (⟨1, some s2⟩, Tensor.cat ⟨[B, C], xd⟩ s2 1)) := rfl
  rw [hmul] at h
  exact h

/-- Claim C10 counterexample: after a first `DepthCat.forward` call, a
subsequent call on a different input of the same shape does not return a
tensor equal to the first call's result: with scalar `s = 5`, a first call
on the all-zero `(1, 1)` tensor and a second call on the all-one `(1, 1)`
tensor produce outputs that differ at index `(0, 0)`. -/
theorem depthcat_second_call_differs :
    ∃ st1 out1,
      DepthCat.forward ⟨1, some (Tensor.scalar 5)⟩ ⟨[1, 1], fun _ => 0⟩ =
        (st1, some out1) ∧
    ∃ st2 out2, DepthCat.forward st1 ⟨[1, 1], fun _ => 1⟩ = (st2, some out2) ∧
      out2.shape = out1.shape ∧ out2.data [0, 0] ≠ out1.data [0, 0] := by
  refine ⟨_, _, rfl, _, _, rfl, rfl, ?_⟩
  decide

/-- One `DepthCat.forward` step from a state whose `s` is a `(B, 1)`
tensor with every entry `v` behaves on a `(B, C)` input like a step from
the original scalar state: it succeeds, re-establishes the same state
invariant, and its output is extensionally equal to the fresh-state
output on that input. -/
theorem depthcat_step_fresh (B C : Nat) (v : Int) (t : Tensor)
    (ht : t.shape = [B, 1]) (hv : ∀ idx, t.data idx = v)
    (y : Tensor) (hy : y.shape = [B, C]) :
    ∃ t2 out, DepthCat.forward ⟨1, some t⟩ y = (⟨1, some t2⟩, some out) ∧
      t2.shape = [B, 1] ∧ (∀ idx, t2.data idx = v) ∧
      ∃ st0 out0,
        DepthCat.forward ⟨1, some (Tensor.scalar v)⟩ y = (st0, some out0) ∧
        Tensor.eqv out out0 := by
  obtain ⟨ts, td⟩ := t
  obtain ⟨ys, yd⟩ := y
  change ts = [B, 1] at ht
  change ys = [B, C] at hy
  subst ht hy
  have hv' : ∀ idx, td idx = v := hv
  have h2 := depthcat_forward_rank2 B C ⟨[B, 1], td⟩ yd _ (mul_ones_self B td)
  have hcat2 := Tensor.cat_eq ⟨[B, C], yd⟩
    ⟨[B, 1], fun idx => td (broadcastIdx [B, 1] idx) * 1⟩ 1 rfl
    Nat.one_lt_two (fun j hj hne => agree_off_one B C 1 j hj hne)
  have h0 := depthcat_forward_rank2 B C (Tensor.scalar v) yd _ (scalar_mul_ones v B)
  have hcat0 := Tensor.cat_eq ⟨[B, C], yd⟩ ⟨[B, 1], fun _ => v * 1⟩ 1 rfl
    Nat.one_lt_two (fun j hj hne => agree_off_one B C 1 j hj hne)
  refine ⟨_, _, h2.trans (congrArg (Prod.mk _) hcat2), rfl, ?_, _, _,
    h0.trans (congrArg (Prod.mk _) hcat0), ⟨rfl, ?_⟩⟩
  · intro idx
    show td (broadcastIdx [B, 1] idx) * 1 = v
    rw [hv', mul_one]
  · intro idx _
    show (if idx.getD 1 0 < C then yd idx
      else td (broadcastIdx [B, 1] (idx.set 1 (idx.getD 1 0 - C))) * 1) =
      (if idx.getD 1 0 < C then yd idx else v * 1)
    by_cases hc : idx.getD 1 0 < C
    · rw [if_pos hc, if_pos hc]
    · rw [if_neg hc, if_neg hc, hv']

/-- Running any number of further `DepthCat.forward` calls from a state
satisfying the broadcast invariant: every output of the run equals, up to
extensional tensor equality, the output of a fresh call with the original
scalar `s` on the same input. -/
theorem depthcat_run_fresh (B C : Nat) (v : Int) (xs : List Tensor) :
    ∀ (t : Tensor), t.shape = [B, 1] → (∀ idx, t.data idx = v) →
      (∀ y ∈ xs, y.shape = [B, C]) →
      List.Forall₂
        (fun o fresh => ∃ t1 t0, o = some t1 ∧ fresh = some t0 ∧ Tensor.eqv t1 t0)
        (depthcatRun ⟨1, some t⟩ xs).2
        (xs.map fun y => (DepthCat.forward ⟨1, some (Tensor.scalar v)⟩ y).2) := by
  induction xs with
  | nil =>
    intro t _ _ _
    simp only [depthcatRun, List.map_nil]
    exact List.Forall₂.nil
  | cons y ys ih =>
    intro t ht hv hall
    obtain ⟨t2, out, hfwd, ht2, hv2, st0, out0, hfresh, heqv⟩ :=
      depthcat_step_fresh B C v t ht hv y (hall y (List.mem_cons_self y ys))
    have ihtail := ih t2 ht2 hv2 (fun z hz => hall z (List.mem_cons_of_mem y hz))
    simp only [depthcatRun, List.map_cons]
    rw [hfwd]
    exact List.Forall₂.cons ⟨out, out0, rfl, congrArg Prod.snd hfresh, heqv⟩ ihtail

/-- Claim C10 amended: the overwrite of `s` is invisible in all later
outputs for same-shaped inputs: after a first call on a `(B, C)` input
with `s` a scalar, every subsequent call of the ensuing run, on any
inputs of the same shape, succeeds and returns (extensionally) exactly
what a fresh call with the original scalar `s` would return on its
input; in particular every subsequent call that repeats the first input
yields a tensor extensionally equal to the first call's result. -/
theorem depthcat_overwrite_invisible (B C : Nat) (v : Int) (x : Tensor)
    (hx : x.shape = [B, C]) (xs : List Tensor)
    (hxs : ∀ y ∈ xs, y.shape = [B, C]) :
    ∃ st1 out1,
      DepthCat.forward ⟨1, some (Tensor.scalar v)⟩ x = (st1, some out1) ∧
      List.Forall₂
        (fun o fresh => ∃ t1 t0, o = some t1 ∧ fresh = some t0 ∧ Tensor.eqv t1 t0)
        (depthcatRun st1 xs).2
        (xs.map fun y => (DepthCat.forward ⟨1, some (Tensor.scalar v)⟩ y).2) ∧
      ∀ y ∈ xs, y = x →
        (DepthCat.forward ⟨1, some (Tensor.scalar v)⟩ y).2 = some out1 := by
  obtain ⟨sh, xd⟩ := x
  change sh = [B, C] at hx
  subst hx
  have h1 := depthcat_forward_rank2 B C (Tensor.scalar v) xd _ (scalar_mul_ones v B)
  have hcat1 := Tensor.cat_eq ⟨[B, C], xd⟩ ⟨[B, 1], fun _ => v * 1⟩ 1 rfl
    Nat.one_lt_two (fun j hj hne => agree_off_one B C 1 j hj hne)
  refine ⟨_, _, h1.trans (congrArg (Prod.mk _) hcat1), ?_, ?_⟩
  · exact depthcat_run_fresh B C v xs ⟨[B, 1], fun _ => v * 1⟩ rfl
      (fun _ => mul_one v) hxs
  · intro y hy hyx
    subst hyx
    exact congrArg Prod.snd (h1.trans (congrArg (Prod.mk _) hcat1))

theorem depthcat_overwrite_invisible_witness :
    ∃ st1 out1,
      DepthCat.forward ⟨1, some (Tensor.scalar 4)⟩ ⟨[2, 2], fun _ => 3⟩ =
        (st1, some out1) ∧
      List.Forall₂
        (fun o fresh => ∃ t1 t0, o = some t1 ∧ fresh = some t0 ∧ Tensor.eqv t1 t0)
        (depthcatRun st1
          [⟨[2, 2], fun _ => 3⟩, ⟨[2, 2], fun _ => 3⟩]).2
        (([⟨[2, 2], fun _ => 3⟩, ⟨[2, 2], fun _ => 3⟩] : List Tensor).map
          fun y => (DepthCat.forward ⟨1, some (Tensor.scalar 4)⟩ y).2) ∧
      ∀ y ∈ ([⟨[2, 2], fun _ => 3⟩, ⟨[2, 2], fun _ => 3⟩] : List Tensor),
        y = ⟨[2, 2], fun _ => 3⟩ →
          (DepthCat.forward ⟨1, some (Tensor.scalar 4)⟩ y).2 = some out1 :=
  depthcat_overwrite_invisible 2 2 4 ⟨[2, 2], fun _ => 3⟩ rfl
    [⟨[2, 2], fun _ => 3⟩, ⟨[2, 2], fun _ => 3⟩]
    (by
      intro y hy
      simp only [List.mem_cons, List.not_mem_nil, or_false] at hy
      rcases hy with rfl | rfl <;> rfl)

/-- Claim C3: `Augmenter` with `augment_func` unset, `augment_dims = d`
and in-range `augment_idx = i`: the output has the input's shape with axis
`i` enlarged by `d`; with `order = "first"` the first `d` slices along
axis `i` are zero and the remaining slices equal `x`; with
`order = "last"` the last `d` slices along axis `i` are zero and the
remaining slices equal `x`. -/
theorem augmenter_zeros_forward (d i : Nat) (x : Tensor)
    (hi : i < x.shape.length) :
    ∃ outF outL,
      Augmenter.forward ⟨i, d, none, "first"⟩ x = some outF ∧
      Augmenter.forward ⟨i, d, none, "last"⟩ x = some outL ∧
      outF.shape = x.shape.set i (x.shape.getD i 0 + d) ∧
      outL.shape = x.shape.set i (x.shape.getD i 0 + d) ∧
      (∀ idx, validIdx outF.shape idx →
        (idx.getD i 0 < d → outF.data idx = 0) ∧
        (d ≤ idx.getD i 0 →
          outF.data idx = x.data (idx.set i (idx.getD i 0 - d)))) ∧
      (∀ idx, validIdx outL.shape idx →
        (idx.getD i 0 < x.shape.getD i 0 → outL.data idx = x.data idx) ∧
        (x.shape.getD i 0 ≤ idx.getD i 0 → outL.data idx = 0)) := by
  have hset : setIdx x.shape i d = some (x.shape.set i d) := by
    unfold setIdx
    rw [if_pos hi]
  have hgd : (x.shape.set i d).getD i 0 = d := getD_set_self x.shape i d hi
  have hcatF := Tensor.cat_eq (Tensor.zeros (x.shape.set i d)) x i
    (by simp [Tensor.zeros]) (by simpa [Tensor.zeros] using hi)
    (fun j hj hne => getD_set_ne x.shape i j d (Ne.symm hne))
  have hcatL := Tensor.cat_eq x (Tensor.zeros (x.shape.set i d)) i
    (by simp [Tensor.zeros]) hi
    (fun j hj hne => (getD_set_ne x.shape i j d (Ne.symm hne)).symm)
  have hTF : Tensor.cat (Tensor.zeros (x.shape.set i d)) x i =
      some ⟨x.shape.set i (x.shape.getD i 0 + d),
        fun idx => if idx.getD i 0 < d then 0
          else x.data (idx.set i (idx.getD i 0 - d))⟩ := by
    rw [hcatF]
    congr 1
    congr 1
    · show (x.shape.set i d).set i
        ((x.shape.set i d).getD i 0 + x.shape.getD i 0) = _
      rw [hgd, List.set_set, Nat.add_comm]
    · funext idx
      show (if idx.getD i 0 < (x.shape.set i d).getD i 0 then (0 : Int)
        else x.data (idx.set i (idx.getD i 0 - (x.shape.set i d).getD i 0))) = _
      rw [hgd]
  have hTL : Tensor.cat x (Tensor.zeros (x.shape.set i d)) i =
      some ⟨x.shape.set i (x.shape.getD i 0 + d),
        fun idx => if idx.getD i 0 < x.shape.getD i 0 then x.data idx
          else 0⟩ := by
    rw [hcatL]
    congr 1
    congr 1
    show x.shape.set i (x.shape.getD i 0 + (x.shape.set i d).getD i 0) = _
    rw [hgd]
  refine ⟨⟨x.shape.set i (x.shape.getD i 0 + d),
      fun idx => if idx.getD i 0 < d then 0
        else x.data (idx.set i (idx.getD i 0 - d))⟩,
    ⟨x.shape.set i (x.shape.getD i 0 + d),
      fun idx => if idx.getD i 0 < x.shape.getD i 0 then x.data idx else 0⟩,
    ?_, ?_, rfl, rfl, ?_, ?_⟩
  · simp only [Augmenter.forward]
    rw [hset]
    exact hTF
  · simp only [Augmenter.forward]
    rw [hset]
    exact hTL
  · intro idx _
    constructor
    · intro hlt
      show (if idx.getD i 0 < d then (0 : Int)
        else x.data (idx.set i (idx.getD i 0 - d))) = 0
      rw [if_pos hlt]
    · intro hge
      show (if idx.getD i 0 < d then (0 : Int)
        else x.data (idx.set i (idx.getD i 0 - d))) =
        x.data (idx.set i (idx.getD i 0 - d))
      rw [if_neg (by omega)]
  · intro idx _
    constructor
    · intro hlt
      show (if idx.getD i 0 < x.shape.getD i 0 then x.data idx else (0 : Int)) =
        x.data idx
      rw [if_pos hlt]
    · intro hge
      show (if idx.getD i 0 < x.shape.getD i 0 then x.data idx else (0 : Int)) = 0
      rw [if_neg (by omega)]

theorem augmenter_zeros_forward_witness :
    ∃ outF outL,
      Augmenter.forward ⟨1, 2, none, "first"⟩ ⟨[2, 3], fun _ => 5⟩ = some outF ∧
      Augmenter.forward ⟨1, 2, none, "last"⟩ ⟨[2, 3], fun _ => 5⟩ = some outL ∧
      outF.shape = ([2, 3] : List Nat).set 1 (([2, 3] : List Nat).getD 1 0 + 2) ∧
      outL.shape = ([2, 3] : List Nat).set 1 (([2, 3] : List Nat).getD 1 0 + 2) ∧
      (∀ idx, validIdx outF.shape idx →
        (idx.getD 1 0 < 2 → outF.data idx = 0) ∧
        (2 ≤ idx.getD 1 0 →
          outF.data idx = (Tensor.mk [2, 3] fun _ => 5).data
            (idx.set 1 (idx.getD 1 0 - 2)))) ∧
      (∀ idx, validIdx outL.shape idx →
        (idx.getD 1 0 < ([2, 3] : List Nat).getD 1 0 →
          outL.data idx = (Tensor.mk [2, 3] fun _ => 5).data idx) ∧
        (([2, 3] : List Nat).getD 1 0 ≤ idx.getD 1 0 → outL.data idx = 0)) :=
  augmenter_zeros_forward 2 1 ⟨[2, 3], fun _ => 5⟩ (by simp)

/-- Claim C5: `Augmenter` with `augment_func` set to `g`, where `g x`
agrees with `x` on every axis except `augment_idx = i` where it has size
`k`: the output is the concatenation of `g x` and `x` along axis `i`
(`g x` first when `order = "first"`, last when `order = "last"`), so axis
`i` grows by `k` and the non-augmented region equals `x` exactly. -/
theorem augmenter_func_forward (g : Tensor → Tensor) (dm i k : Nat)
    (x : Tensor) (hi : i < x.shape.length)
    (hlen : (g x).shape.length = x.shape.length)
    (hoff : ∀ j, j < x.shape.length → j ≠ i →
      (g x).shape.getD j 0 = x.shape.getD j 0)
    (hk : (g x).shape.getD i 0 = k) :
    ∃ outF outL,
      Augmenter.forward ⟨i, dm, some g, "first"⟩ x = some outF ∧
      Augmenter.forward ⟨i, dm, some g, "last"⟩ x = some outL ∧
      outF.shape = x.shape.set i (x.shape.getD i 0 + k) ∧
      outL.shape = x.shape.set i (x.shape.getD i 0 + k) ∧
      (∀ idx, validIdx outF.shape idx →
        (idx.getD i 0 < k → outF.data idx = (g x).data idx) ∧
        (k ≤ idx.getD i 0 →
          outF.data idx = x.data (idx.set i (idx.getD i 0 - k)))) ∧
      (∀ idx, validIdx outL.shape idx →
        (idx.getD i 0 < x.shape.getD i 0 → outL.data idx = x.data idx) ∧
        (x.shape.getD i 0 ≤ idx.getD i 0 →
          outL.data idx = (g x).data
            (idx.set i (idx.getD i 0 - x.shape.getD i 0)))) := by
  have hcatF := Tensor.cat_eq (g x) x i hlen (hlen ▸ hi)
    (fun j hj hne => hoff j (hlen ▸ hj) hne)
  have hcatL := Tensor.cat_eq x (g x) i hlen.symm hi
    (fun j hj hne => (hoff j hj hne).symm)
  have hTF : Tensor.cat (g x) x i =
      some ⟨x.shape.set i (x.shape.getD i 0 + k),
        fun idx => if idx.getD i 0 < k then (g x).data idx
          else x.data (idx.set i (idx.getD i 0 - k))⟩ := by
    rw [hcatF]
    congr 1
    congr 1
    · rw [hk, set_eq_of_agree_off (g x).shape x.shape i _ hlen
        (fun j hj hne => hoff j (hlen ▸ hj) hne), Nat.add_comm]
    · funext idx
      rw [hk]
  have hTL : Tensor.cat x (g x) i =
      some ⟨x.shape.set i (x.shape.getD i 0 + k),
        fun idx => if idx.getD i 0 < x.shape.getD i 0 then x.data idx
          else (g x).data (idx.set i (idx.getD i 0 - x.shape.getD i 0))⟩ := by
    rw [hcatL]
    congr 1
    congr 1
    rw [hk]
  refine ⟨⟨x.shape.set i (x.shape.getD i 0 + k),
      fun idx => if idx.getD i 0 < k then (g x).data idx
        else x.data (idx.set i (idx.getD i 0 - k))⟩,
    ⟨x.shape.set i (x.shape.getD i 0 + k),
      fun idx => if idx.getD i 0 < x.shape.getD i 0 then x.data idx
        else (g x).data (idx.set i (idx.getD i 0 - x.shape.getD i 0))⟩,
    hTF, hTL, rfl, rfl, ?_, ?_⟩
  · intro idx _
    constructor
    · intro hlt
      show (if idx.getD i 0 < k then (g x).data idx
        else x.data (idx.set i (idx.getD i 0 - k))) = (g x).data idx
      rw [if_pos hlt]
    · intro hge
      show (if idx.getD i 0 < k then (g x).data idx
        else x.data (idx.set i (idx.getD i 0 - k))) =
        x.data (idx.set i (idx.getD i 0 - k))
      rw [if_neg (by omega)]
  · intro idx _
    constructor
    · intro hlt
      show (if idx.getD i 0 < x.shape.getD i 0 then x.data idx
        else (g x).data (idx.set i (idx.getD i 0 - x.shape.getD i 0))) =
        x.data idx
      rw [if_pos hlt]
    · intro hge
      show (if idx.getD i 0 < x.shape.getD i 0 then x.data idx
        else (g x).data (idx.set i (idx.getD i 0 - x.shape.getD i 0))) =
        (g x).data (idx.set i (idx.getD i 0 - x.shape.getD i 0))
      rw [if_neg (by omega)]

theorem augmenter_func_forward_witness :
    ∃ outF outL,
      Augmenter.forward
        ⟨1, 7, some (fun t => ⟨t.shape.set 1 2, fun _ => 9⟩), "first"⟩
        ⟨[2, 3], fun _ => 5⟩ = some outF ∧
      Augmenter.forward
        ⟨1, 7, some (fun t => ⟨t.shape.set 1 2, fun _ => 9⟩), "last"⟩
        ⟨[2, 3], fun _ => 5⟩ = some outL ∧
      outF.shape = ([2, 3] : List Nat).set 1 (([2, 3] : List Nat).getD 1 0 + 2) ∧
      outL.shape = ([2, 3] : List Nat).set 1 (([2, 3] : List Nat).getD 1 0 + 2) ∧
      (∀ idx, validIdx outF.shape idx →
        (idx.getD 1 0 < 2 → outF.data idx =
          ((fun (t : Tensor) => (⟨t.shape.set 1 2, fun _ => 9⟩ : Tensor))
            ⟨[2, 3], fun _ => 5⟩).data idx) ∧
        (2 ≤ idx.getD 1 0 →
          outF.data idx = (Tensor.mk [2, 3] fun _ => 5).data
            (idx.set 1 (idx.getD 1 0 - 2)))) ∧
      (∀ idx, validIdx outL.shape idx →
        (idx.getD 1 0 < ([2, 3] : List Nat).getD 1 0 →
          outL.data idx = (Tensor.mk [2, 3] fun _ => 5).data idx) ∧
        (([2, 3] : List Nat).getD 1 0 ≤ idx.getD 1 0 →
          outL.data idx =
            ((fun (t : Tensor) => (⟨t.shape.set 1 2, fun _ => 9⟩ : Tensor))
              ⟨[2, 3], fun _ => 5⟩).data
              (idx.set 1 (idx.getD 1 0 - ([2, 3] : List Nat).getD 1 0)))) :=
  augmenter_func_forward (fun t => ⟨t.shape.set 1 2, fun _ => 9⟩) 7 1 2
    ⟨[2, 3], fun _ => 5⟩ (by simp) (by simp) (by decide) (by decide)
